import Mathlib

/-!
Verification of the security layer of the Kit Memory Extension
(credential encryption in `src/lib/crypto.js` and `src/background.js`,
input sanitization in `src/lib/parser.js`).

Modelling conventions.

* JavaScript strings are modelled as Lean `String` (sequences of Unicode
  code points); raw byte buffers (`Uint8Array` / `ArrayBuffer`) are
  modelled as `List Nat` with every element `< 256`.
* Platform primitives that the repository calls but does not define
  (`btoa` / `atob`, `TextEncoder` / `TextDecoder`, `JSON.stringify` /
  `JSON.parse`, the Web Crypto API) are given executable models faithful
  to their documented semantics; each carries a doc comment saying what
  it models.
* Randomness (`crypto.getRandomValues`) is modelled by universally
  quantified byte-list parameters, and the wall clock (`Date.now`,
  `setTimeout`) by explicit `Nat` time parameters and deadlines.
-/

/-! ## Base64 (model of the platform `btoa` / `atob` primitives) -/

/-- The base64 alphabet, index 0–63. -/
def b64Alphabet : List Char :=
  "ABCDEFGHIJKLMNOPQRSTUVWXYZabcdefghijklmnopqrstuvwxyz0123456789+/".data

/-- The base64 digit for a 6-bit value. -/
def b64Char (n : Nat) : Char := b64Alphabet.getD n '='

/-- The 6-bit value of a base64 digit. -/
def b64Index (c : Char) : Nat := (b64Alphabet.indexOf c)

/-- Modelled from the platform: `btoa` on a binary string, i.e. standard
base64 encoding of a byte sequence, processing bytes in groups of three
and padding the final group with `=`. -/
def btoa : List Nat → List Char
  | [] => []
  | [b0] => [b64Char (b0 / 4), b64Char (b0 % 4 * 16), '=', '=']
  | [b0, b1] => [b64Char (b0 / 4), b64Char (b0 % 4 * 16 + b1 / 16), b64Char (b1 % 16 * 4), '=']
  | b0 :: b1 :: b2 :: rest =>
      b64Char (b0 / 4) :: b64Char (b0 % 4 * 16 + b1 / 16) ::
      b64Char (b1 % 16 * 4 + b2 / 64) :: b64Char (b2 % 64) :: btoa rest

/-- Modelled from the platform: `atob`, the inverse base64 decoding on
well-formed input (behaviour on malformed input is irrelevant here: the
repository only ever decodes strings produced by `btoa`). -/
def atob : List Char → List Nat
  | c0 :: c1 :: c2 :: c3 :: rest =>
      if c2 = '=' then [b64Index c0 * 4 + b64Index c1 / 16]
      else if c3 = '=' then
        [b64Index c0 * 4 + b64Index c1 / 16, b64Index c1 % 16 * 16 + b64Index c2 / 4]
      else
        (b64Index c0 * 4 + b64Index c1 / 16) ::
        (b64Index c1 % 16 * 16 + b64Index c2 / 4) ::
        (b64Index c2 % 4 * 64 + b64Index c3) :: atob rest
  | _ => []

/-- `SecureStorage.arrayBufferToBase64` (src/lib/crypto.js:168). -/
def arrayBufferToBase64 (buffer : List Nat) : String := String.mk (btoa buffer)

/-- `SecureStorage.base64ToArrayBuffer` (src/lib/crypto.js:178). -/
def base64ToArrayBuffer (base64 : String) : List Nat := atob base64.data

theorem b64Index_b64Char : ∀ n, n < 64 → b64Index (b64Char n) = n := by decide

theorem b64Char_ne_pad : ∀ n, n < 64 → b64Char n ≠ '=' := by decide

theorem atob_two_pad (c0 c1 : Char) :
    atob [c0, c1, '=', '='] = [b64Index c0 * 4 + b64Index c1 / 16] := by
  simp [atob]

theorem atob_three_pad (c0 c1 c2 : Char) (h : c2 ≠ '=') :
    atob [c0, c1, c2, '='] =
      [b64Index c0 * 4 + b64Index c1 / 16, b64Index c1 % 16 * 16 + b64Index c2 / 4] := by
  simp [atob, h]

theorem atob_cons (c0 c1 c2 c3 : Char) (rest : List Char) (h2 : c2 ≠ '=') (h3 : c3 ≠ '=') :
    atob (c0 :: c1 :: c2 :: c3 :: rest) =
      (b64Index c0 * 4 + b64Index c1 / 16) ::
      (b64Index c1 % 16 * 16 + b64Index c2 / 4) ::
      (b64Index c2 % 4 * 64 + b64Index c3) :: atob rest := by
  simp [atob, h2, h3]

theorem atob_btoa (bs : List Nat) (h : ∀ b ∈ bs, b < 256) : atob (btoa bs) = bs := by
  induction bs using btoa.induct with
  | case1 => rfl
  | case2 b0 =>
    have hb0 : b0 < 256 := h b0 (by simp)
    rw [btoa, atob_two_pad, b64Index_b64Char _ (by omega), b64Index_b64Char _ (by omega)]
    have : b0 / 4 * 4 + b0 % 4 * 16 / 16 = b0 := by omega
    rw [this]
  | case3 b0 b1 =>
    have hb0 : b0 < 256 := h b0 (by simp)
    have hb1 : b1 < 256 := h b1 (by simp)
    rw [btoa, atob_three_pad _ _ _ (b64Char_ne_pad _ (by omega)),
      b64Index_b64Char _ (by omega), b64Index_b64Char _ (by omega),
      b64Index_b64Char _ (by omega)]
    have e0 : b0 / 4 * 4 + (b0 % 4 * 16 + b1 / 16) / 16 = b0 := by omega
    have e1 : (b0 % 4 * 16 + b1 / 16) % 16 * 16 + b1 % 16 * 4 / 4 = b1 := by omega
    rw [e0, e1]
  | case4 b0 b1 b2 rest ih =>
    have hb0 : b0 < 256 := h b0 (by simp)
    have hb1 : b1 < 256 := h b1 (by simp)
    have hb2 : b2 < 256 := h b2 (by simp)
    have hrest : ∀ b ∈ rest, b < 256 := fun b hb => h b (by simp [hb])
    rw [btoa, atob_cons _ _ _ _ _ (b64Char_ne_pad _ (by omega)) (b64Char_ne_pad _ (by omega)),
      b64Index_b64Char _ (by omega), b64Index_b64Char _ (by omega),
      b64Index_b64Char _ (by omega), b64Index_b64Char _ (by omega)]
    have e0 : b0 / 4 * 4 + (b0 % 4 * 16 + b1 / 16) / 16 = b0 := by omega
    have e1 : (b0 % 4 * 16 + b1 / 16) % 16 * 16 + (b1 % 16 * 4 + b2 / 64) / 4 = b1 := by omega
    have e2 : (b1 % 16 * 4 + b2 / 64) % 4 * 64 + b2 % 64 = b2 := by omega
    rw [e0, e1, e2, ih hrest]

theorem btoa_length (bs : List Nat) : (btoa bs).length = (bs.length + 2) / 3 * 4 := by
  induction bs using btoa.induct with
  | case1 => rfl
  | case2 b0 => simp [btoa]
  | case3 b0 b1 => simp [btoa]
  | case4 b0 b1 b2 rest ih => simp only [btoa, List.length_cons, ih]; omega

theorem base64_roundtrip (bs : List Nat) (h : ∀ b ∈ bs, b < 256) :
    base64ToArrayBuffer (arrayBufferToBase64 bs) = bs := by
  simpa [base64ToArrayBuffer, arrayBufferToBase64] using atob_btoa bs h

/-! ## UTF-8 (model of the platform `TextEncoder` / `TextDecoder`) -/

/-- Modelled from the platform: `TextEncoder` encoding of a single code
point into 1–4 UTF-8 bytes. -/
def utf8EncodeChar (c : Char) : List Nat :=
  if c.toNat < 0x80 then [c.toNat]
  else if c.toNat < 0x800 then [0xC0 + c.toNat / 64, 0x80 + c.toNat % 64]
  else if c.toNat < 0x10000 then
    [0xE0 + c.toNat / 4096, 0x80 + c.toNat / 64 % 64, 0x80 + c.toNat % 64]
  else
    [0xF0 + c.toNat / 262144, 0x80 + c.toNat / 4096 % 64, 0x80 + c.toNat / 64 % 64,
      0x80 + c.toNat % 64]

def utf8EncodeChars : List Char → List Nat
  | [] => []
  | c :: cs => utf8EncodeChar c ++ utf8EncodeChars cs

/-- Modelled from the platform: `new TextEncoder().encode(s)`. -/
def utf8Encode (s : String) : List Nat := utf8EncodeChars s.data

/-- Modelled from the platform: UTF-8 decoding of a single code point
(the leading byte determines how many continuation bytes follow);
lenient on malformed input, which the repository never feeds it in the
situations verified here. -/
def utf8DecodeOne : List Nat → Option (Char × List Nat)
  | [] => none
  | b0 :: rest =>
    if b0 < 0x80 then some (Char.ofNat b0, rest)
    else if b0 < 0xE0 then
      match rest with
      | b1 :: rest2 => some (Char.ofNat ((b0 - 0xC0) * 64 + (b1 - 0x80)), rest2)
      | [] => none
    else if b0 < 0xF0 then
      match rest with
      | b1 :: b2 :: rest3 =>
        some (Char.ofNat (((b0 - 0xE0) * 64 + (b1 - 0x80)) * 64 + (b2 - 0x80)), rest3)
      | _ => none
    else
      match rest with
      | b1 :: b2 :: b3 :: rest4 =>
        some (Char.ofNat ((((b0 - 0xF0) * 64 + (b1 - 0x80)) * 64 + (b2 - 0x80)) * 64 + (b3 - 0x80)),
          rest4)
      | _ => none

/-- Fuelled decoding loop; every step consumes at least one byte, so
fuel equal to the byte count is always sufficient. -/
def utf8DecodeLoop : Nat → List Nat → Option (List Char)
  | _, [] => some []
  | 0, _ :: _ => none
  | fuel + 1, b :: rest =>
    match utf8DecodeOne (b :: rest) with
    | some (c, r) => (utf8DecodeLoop fuel r).map fun cs => c :: cs
    | none => none

/-- Modelled from the platform: UTF-8 decoding of a full byte sequence. -/
def utf8DecodeChars (l : List Nat) : Option (List Char) := utf8DecodeLoop l.length l

/-- Modelled from the platform: `new TextDecoder().decode(bytes)`. -/
def utf8DecodeString (bs : List Nat) : Option String :=
  (utf8DecodeChars bs).map fun cs => String.mk cs

theorem char_toNat_lt (c : Char) : c.toNat < 1114112 := by
  rcases c.valid with h | ⟨_, h2⟩
  · exact Nat.lt_trans h (by norm_num)
  · exact h2

theorem utf8EncodeChar_lt (c : Char) : ∀ b ∈ utf8EncodeChar c, b < 256 := by
  have hv := char_toNat_lt c
  intro b hb
  by_cases h1 : c.toNat < 0x80
  · simp only [utf8EncodeChar, if_pos h1, List.mem_singleton] at hb; omega
  · by_cases h2 : c.toNat < 0x800
    · simp only [utf8EncodeChar, if_neg h1, if_pos h2, List.mem_cons,
        List.not_mem_nil, or_false] at hb
      rcases hb with rfl | rfl <;> omega
    · by_cases h3 : c.toNat < 0x10000
      · simp only [utf8EncodeChar, if_neg h1, if_neg h2, if_pos h3, List.mem_cons,
          List.not_mem_nil, or_false] at hb
        rcases hb with rfl | rfl | rfl <;> omega
      · simp only [utf8EncodeChar, if_neg h1, if_neg h2, if_neg h3, List.mem_cons,
          List.not_mem_nil, or_false] at hb
        rcases hb with rfl | rfl | rfl | rfl <;> omega

theorem utf8EncodeChars_lt (l : List Char) : ∀ b ∈ utf8EncodeChars l, b < 256 := by
  induction l with
  | nil => simp [utf8EncodeChars]
  | cons c cs ih =>
    intro b hb
    simp only [utf8EncodeChars, List.mem_append] at hb
    rcases hb with hb | hb
    · exact utf8EncodeChar_lt c b hb
    · exact ih b hb

theorem utf8Encode_lt (s : String) : ∀ b ∈ utf8Encode s, b < 256 :=
  utf8EncodeChars_lt s.data

theorem utf8DecodeOne_encodeChar (c : Char) (bs : List Nat) :
    utf8DecodeOne (utf8EncodeChar c ++ bs) = some (c, bs) := by
  have hv := char_toNat_lt c
  by_cases h1 : c.toNat < 0x80
  · simp only [utf8EncodeChar, if_pos h1, List.cons_append, List.nil_append]
    simp only [utf8DecodeOne, h1, ite_true]
    rw [Char.ofNat_toNat]
  · by_cases h2 : c.toNat < 0x800
    · simp only [utf8EncodeChar, if_neg h1, if_pos h2, List.cons_append, List.nil_append]
      have d1 : ¬(0xC0 + c.toNat / 64 < 0x80) := by omega
      have d2 : 0xC0 + c.toNat / 64 < 0xE0 := by omega
      simp only [utf8DecodeOne, d1, d2, ite_true, ite_false]
      have e : (0xC0 + c.toNat / 64 - 0xC0) * 64 + (0x80 + c.toNat % 64 - 0x80) = c.toNat := by
        omega
      rw [e, Char.ofNat_toNat]
    · by_cases h3 : c.toNat < 0x10000
      · simp only [utf8EncodeChar, if_neg h1, if_neg h2, if_pos h3, List.cons_append,
          List.nil_append]
        have d1 : ¬(0xE0 + c.toNat / 4096 < 0x80) := by omega
        have d2 : ¬(0xE0 + c.toNat / 4096 < 0xE0) := by omega
        have d3 : 0xE0 + c.toNat / 4096 < 0xF0 := by omega
        simp only [utf8DecodeOne, d1, d2, d3, ite_true, ite_false]
        have e : ((0xE0 + c.toNat / 4096 - 0xE0) * 64 + (0x80 + c.toNat / 64 % 64 - 0x80)) * 64
            + (0x80 + c.toNat % 64 - 0x80) = c.toNat := by omega
        rw [e, Char.ofNat_toNat]
      · simp only [utf8EncodeChar, if_neg h1, if_neg h2, if_neg h3, List.cons_append,
          List.nil_append]
        have d1 : ¬(0xF0 + c.toNat / 262144 < 0x80) := by omega
        have d2 : ¬(0xF0 + c.toNat / 262144 < 0xE0) := by omega
        have d3 : ¬(0xF0 + c.toNat / 262144 < 0xF0) := by omega
        simp only [utf8DecodeOne, d1, d2, d3, ite_true, ite_false]
        have e : (((0xF0 + c.toNat / 262144 - 0xF0) * 64 + (0x80 + c.toNat / 4096 % 64 - 0x80)) * 64
            + (0x80 + c.toNat / 64 % 64 - 0x80)) * 64 + (0x80 + c.toNat % 64 - 0x80) = c.toNat := by
          omega
        rw [e, Char.ofNat_toNat]

theorem utf8EncodeChar_ne_nil (c : Char) : ∃ b bs, utf8EncodeChar c = b :: bs := by
  by_cases h1 : c.toNat < 0x80
  · exact ⟨c.toNat, [], by simp [utf8EncodeChar, if_pos h1]⟩
  · by_cases h2 : c.toNat < 0x800
    · exact ⟨0xC0 + c.toNat / 64, [0x80 + c.toNat % 64],
        by simp [utf8EncodeChar, if_neg h1, if_pos h2]⟩
    · by_cases h3 : c.toNat < 0x10000
      · exact ⟨0xE0 + c.toNat / 4096, [0x80 + c.toNat / 64 % 64, 0x80 + c.toNat % 64],
          by simp [utf8EncodeChar, if_neg h1, if_neg h2, if_pos h3]⟩
      · exact ⟨0xF0 + c.toNat / 262144,
          [0x80 + c.toNat / 4096 % 64, 0x80 + c.toNat / 64 % 64, 0x80 + c.toNat % 64],
          by simp [utf8EncodeChar, if_neg h1, if_neg h2, if_neg h3]⟩

theorem length_le_utf8EncodeChars (l : List Char) : l.length ≤ (utf8EncodeChars l).length := by
  induction l with
  | nil => exact Nat.le_refl 0
  | cons c cs ih =>
    obtain ⟨b, bs, hb⟩ := utf8EncodeChar_ne_nil c
    simp only [utf8EncodeChars, List.length_append, List.length_cons, hb]
    omega

theorem utf8DecodeLoop_encode (cs : List Char) :
    ∀ fuel, cs.length ≤ fuel → utf8DecodeLoop fuel (utf8EncodeChars cs) = some cs := by
  induction cs with
  | nil => intro fuel _; cases fuel <;> rfl
  | cons c cs ih =>
    intro fuel hf
    cases fuel with
    | zero => simp at hf
    | succ f =>
      obtain ⟨b, bs, hb⟩ := utf8EncodeChar_ne_nil c
      have hsplit : utf8EncodeChars (c :: cs) = b :: (bs ++ utf8EncodeChars cs) := by
        simp [utf8EncodeChars, hb]
      rw [hsplit, utf8DecodeLoop]
      have hone : utf8DecodeOne (b :: (bs ++ utf8EncodeChars cs)) = some (c, utf8EncodeChars cs) := by
        have := utf8DecodeOne_encodeChar c (utf8EncodeChars cs)
        rw [hb] at this
        simpa using this
      simp only [hone]
      rw [ih f (by simp at hf; omega)]
      rfl

theorem utf8DecodeChars_encodeChars (l : List Char) :
    utf8DecodeChars (utf8EncodeChars l) = some l :=
  utf8DecodeLoop_encode l _ (length_le_utf8EncodeChars l)

theorem utf8_roundtrip (s : String) : utf8DecodeString (utf8Encode s) = some s := by
  simp [utf8DecodeString, utf8Encode, utf8DecodeChars_encodeChars]

/-! ## Installation-key obfuscation (src/background.js:89-121) -/

/-- The byte loop shared by `encryptInstallationKey` and
`decryptInstallationKey`: XOR each byte with the key byte at the
cyclically corresponding position (an out-of-range index, possible only
for an empty key, contributes 0, as JavaScript coerces the resulting
`undefined` to 0). -/
def xorCycle (salt : List Nat) : Nat → List Nat → List Nat
  | _, [] => []
  | i, b :: bs => (b ^^^ salt.getD (i % salt.length) 0) :: xorCycle salt (i + 1) bs

/-- `encryptInstallationKey(passphrase)` (src/background.js:89): encode
the passphrase to bytes, XOR with the extension-id bytes cyclically, and
base64-encode.  The stable extension id (`chrome.runtime.id`) is an
explicit parameter. -/
def encryptInstallationKey (extensionId passphrase : String) : String :=
  arrayBufferToBase64 (xorCycle (utf8Encode extensionId) 0 (utf8Encode passphrase))

/-- `decryptInstallationKey(encryptedKey)` (src/background.js:107): the
inverse composition. -/
def decryptInstallationKey (extensionId encryptedKey : String) : Option String :=
  utf8DecodeString (xorCycle (utf8Encode extensionId) 0 (base64ToArrayBuffer encryptedKey))

theorem xorCycle_lt (salt bs : List Nat) (hsalt : ∀ b ∈ salt, b < 256)
    (hbs : ∀ b ∈ bs, b < 256) : ∀ i, ∀ b ∈ xorCycle salt i bs, b < 256 := by
  induction bs with
  | nil => intro i b hb; simp [xorCycle] at hb
  | cons x xs ih =>
    intro i b hb
    have hx : x < 256 := hbs x (by simp)
    have hxs : ∀ b ∈ xs, b < 256 := fun b hb => hbs b (by simp [hb])
    have hs : salt.getD (i % salt.length) 0 < 256 := by
      rcases Nat.lt_or_ge (i % salt.length) salt.length with hlt | hge
      · rw [List.getD_eq_getElem salt 0 hlt]
        exact hsalt _ (List.getElem_mem hlt)
      · rw [List.getD_eq_default salt 0 hge]; omega
    simp only [xorCycle, List.mem_cons] at hb
    rcases hb with rfl | hb
    · have : x ^^^ salt.getD (i % salt.length) 0 < 2 ^ 8 :=
        Nat.xor_lt_two_pow (by omega) (by omega)
      omega
    · exact ih hxs (i + 1) b hb

theorem xorCycle_involution (salt bs : List Nat) :
    ∀ i, xorCycle salt i (xorCycle salt i bs) = bs := by
  induction bs with
  | nil => intro i; rfl
  | cons x xs ih =>
    intro i
    simp only [xorCycle, Nat.xor_cancel_right]
    rw [ih (i + 1)]

/-- The XOR obfuscation of the installation key round-trips (shared
helper; see the C10 claim theorem). -/
theorem installationKey_roundtrip (extensionId p : String) :
    decryptInstallationKey extensionId (encryptInstallationKey extensionId p) = some p := by
  unfold decryptInstallationKey encryptInstallationKey
  rw [base64_roundtrip _ (fun b hb =>
    xorCycle_lt (utf8Encode extensionId) (utf8Encode p)
      (utf8Encode_lt extensionId) (utf8Encode_lt p) 0 b hb)]
  rw [xorCycle_involution]
  exact utf8_roundtrip p

/-! ## JSON serialization of credentials
(model of the platform `JSON.stringify` / `JSON.parse` on the credential
objects the repository serializes) -/

/-- The credential structure handled by `SecureStorage`
(src/lib/crypto.js); a `none` field models an absent (`undefined`)
property of the JavaScript object. -/
structure Credentials where
  supabaseUrl : Option String
  supabaseKey : Option String
deriving DecidableEq

def hexDigit (n : Nat) : Char := "0123456789abcdef".data.getD n '0'

def hexVal (c : Char) : Nat :=
  if '0' ≤ c ∧ c ≤ '9' then c.toNat - 48
  else if 'a' ≤ c ∧ c ≤ 'f' then c.toNat - 87
  else if 'A' ≤ c ∧ c ≤ 'F' then c.toNat - 55
  else 0

/-- Modelled from the platform: how `JSON.stringify` escapes one
character inside a string literal. -/
def jsonEscapeChar (c : Char) : List Char :=
  if c = '"' then ['\\', '"']
  else if c = '\\' then ['\\', '\\']
  else if c = Char.ofNat 8 then ['\\', 'b']
  else if c = Char.ofNat 9 then ['\\', 't']
  else if c = Char.ofNat 10 then ['\\', 'n']
  else if c = Char.ofNat 12 then ['\\', 'f']
  else if c = Char.ofNat 13 then ['\\', 'r']
  else if c.toNat < 32 then ['\\', 'u', '0', '0', hexDigit (c.toNat / 16), hexDigit (c.toNat % 16)]
  else [c]

def jsonEscapeChars : List Char → List Char
  | [] => []
  | c :: cs => jsonEscapeChar c ++ jsonEscapeChars cs

/-- Modelled from the platform: one token (a plain character or one
escape sequence) of a JSON string literal. -/
def jsonTokenOne : List Char → Option (Char × List Char)
  | [] => none
  | c :: cs =>
    if c = '\\' then
      match cs with
      | [] => none
      | e :: cs2 =>
        if e = '"' then some ('"', cs2)
        else if e = '\\' then some ('\\', cs2)
        else if e = '/' then some ('/', cs2)
        else if e = 'b' then some (Char.ofNat 8, cs2)
        else if e = 't' then some (Char.ofNat 9, cs2)
        else if e = 'n' then some (Char.ofNat 10, cs2)
        else if e = 'f' then some (Char.ofNat 12, cs2)
        else if e = 'r' then some (Char.ofNat 13, cs2)
        else if e = 'u' then
          match cs2 with
          | h1 :: h2 :: h3 :: h4 :: cs3 =>
            some (Char.ofNat (((hexVal h1 * 16 + hexVal h2) * 16 + hexVal h3) * 16 + hexVal h4),
              cs3)
          | _ => none
        else none
    else some (c, cs)

/-- Fuelled scan of a JSON string literal up to its closing quote. -/
def parseJStringLoop : Nat → List Char → Option (List Char × List Char)
  | _, [] => none
  | 0, _ :: _ => none
  | fuel + 1, c :: cs =>
    if c = '"' then some ([], cs)
    else
      match jsonTokenOne (c :: cs) with
      | some (ch, rest) => (parseJStringLoop fuel rest).map fun p => (ch :: p.1, p.2)
      | none => none

/-- Parse the body of a JSON string literal (input starts after the
opening quote); returns the decoded characters and the input following
the closing quote. -/
def parseJString (l : List Char) : Option (List Char × List Char) :=
  parseJStringLoop l.length l

theorem hexVal_hexDigit : ∀ n, n < 16 → hexVal (hexDigit n) = n := by decide

theorem jsonTokenOne_escapeChar (c : Char) (tail : List Char) :
    jsonTokenOne (jsonEscapeChar c ++ tail) = some (c, tail) := by
  by_cases h1 : c = '"'
  · subst h1; simp [jsonEscapeChar, jsonTokenOne]
  · by_cases h2 : c = '\\'
    · subst h2; simp [jsonEscapeChar, jsonTokenOne, h1]
    · by_cases h3 : c = Char.ofNat 8
      · subst h3; simp [jsonEscapeChar, jsonTokenOne, h1, h2]
      · by_cases h4 : c = Char.ofNat 9
        · subst h4; simp [jsonEscapeChar, jsonTokenOne, h1, h2, h3]
        · by_cases h5 : c = Char.ofNat 10
          · subst h5; simp [jsonEscapeChar, jsonTokenOne, h1, h2, h3, h4]
          · by_cases h6 : c = Char.ofNat 12
            · subst h6; simp [jsonEscapeChar, jsonTokenOne, h1, h2, h3, h4, h5]
            · by_cases h7 : c = Char.ofNat 13
              · subst h7; simp [jsonEscapeChar, jsonTokenOne, h1, h2, h3, h4, h5, h6]
              · by_cases h8 : c.toNat < 32
                · simp only [jsonEscapeChar, if_neg h1, if_neg h2, if_neg h3, if_neg h4,
                    if_neg h5, if_neg h6, if_neg h7, if_pos h8, List.cons_append,
                    List.nil_append]
                  have hz : hexVal '0' = 0 := by decide
                  calc jsonTokenOne ('\\' :: 'u' :: '0' :: '0' :: hexDigit (c.toNat / 16) ::
                        hexDigit (c.toNat % 16) :: tail)
                      = some (Char.ofNat (((hexVal '0' * 16 + hexVal '0') * 16
                          + hexVal (hexDigit (c.toNat / 16))) * 16
                          + hexVal (hexDigit (c.toNat % 16))), tail) := by rfl
                    _ = some (c, tail) := by
                        rw [hexVal_hexDigit _ (by omega), hexVal_hexDigit _ (by omega), hz]
                        have e : ((0 * 16 + 0) * 16 + c.toNat / 16) * 16 + c.toNat % 16
                            = c.toNat := by omega
                        rw [e, Char.ofNat_toNat]
                · simp only [jsonEscapeChar, if_neg h1, if_neg h2, if_neg h3, if_neg h4,
                    if_neg h5, if_neg h6, if_neg h7, if_neg h8, List.cons_append,
                    List.nil_append]
                  simp [jsonTokenOne, h2]

theorem jsonEscapeChar_head (c : Char) :
    ∃ d ds, jsonEscapeChar c = d :: ds ∧ d ≠ '"' := by
  unfold jsonEscapeChar
  by_cases h1 : c = '"'
  · rw [if_pos h1]; exact ⟨'\\', ['"'], rfl, by decide⟩
  · rw [if_neg h1]
    by_cases h2 : c = '\\'
    · rw [if_pos h2]; exact ⟨'\\', ['\\'], rfl, by decide⟩
    · rw [if_neg h2]
      by_cases h3 : c = Char.ofNat 8
      · rw [if_pos h3]; exact ⟨'\\', ['b'], rfl, by decide⟩
      · rw [if_neg h3]
        by_cases h4 : c = Char.ofNat 9
        · rw [if_pos h4]; exact ⟨'\\', ['t'], rfl, by decide⟩
        · rw [if_neg h4]
          by_cases h5 : c = Char.ofNat 10
          · rw [if_pos h5]; exact ⟨'\\', ['n'], rfl, by decide⟩
          · rw [if_neg h5]
            by_cases h6 : c = Char.ofNat 12
            · rw [if_pos h6]; exact ⟨'\\', ['f'], rfl, by decide⟩
            · rw [if_neg h6]
              by_cases h7 : c = Char.ofNat 13
              · rw [if_pos h7]; exact ⟨'\\', ['r'], rfl, by decide⟩
              · rw [if_neg h7]
                by_cases h8 : c.toNat < 32
                · rw [if_pos h8]
                  exact ⟨'\\', ['u', '0', '0', hexDigit (c.toNat / 16), hexDigit (c.toNat % 16)],
                    rfl, by decide⟩
                · rw [if_neg h8]; exact ⟨c, [], rfl, h1⟩

theorem length_le_jsonEscapeChars (l : List Char) : l.length ≤ (jsonEscapeChars l).length := by
  induction l with
  | nil => exact Nat.le_refl 0
  | cons c cs ih =>
    obtain ⟨d, ds, hd, _⟩ := jsonEscapeChar_head c
    simp only [jsonEscapeChars, List.length_append, List.length_cons, hd]
    omega

theorem parseJStringLoop_escape (s : List Char) :
    ∀ rest fuel, s.length + 1 ≤ fuel →
      parseJStringLoop fuel (jsonEscapeChars s ++ '"' :: rest) = some (s, rest) := by
  induction s with
  | nil =>
    intro rest fuel hf
    cases fuel with
    | zero => simp at hf
    | succ f => rfl
  | cons c cs ih =>
    intro rest fuel hf
    cases fuel with
    | zero => simp at hf
    | succ f =>
      obtain ⟨d, ds, hd, hdq⟩ := jsonEscapeChar_head c
      have hsplit : jsonEscapeChars (c :: cs) ++ '"' :: rest
          = d :: (ds ++ (jsonEscapeChars cs ++ '"' :: rest)) := by
        simp [jsonEscapeChars, hd]
      rw [hsplit, parseJStringLoop, if_neg hdq]
      have htok : jsonTokenOne (d :: (ds ++ (jsonEscapeChars cs ++ '"' :: rest)))
          = some (c, jsonEscapeChars cs ++ '"' :: rest) := by
        have := jsonTokenOne_escapeChar c (jsonEscapeChars cs ++ '"' :: rest)
        rw [hd] at this
        simpa using this
      simp only [htok]
      rw [ih rest f (by simp at hf; omega)]
      rfl

theorem parseJString_escape (s : List Char) (rest : List Char) :
    parseJString (jsonEscapeChars s ++ '"' :: rest) = some (s, rest) := by
  apply parseJStringLoop_escape
  have := length_le_jsonEscapeChars s
  simp only [List.length_append, List.length_cons]
  omega

/-- Match an exact literal prefix, returning the remainder. -/
def dropLit : List Char → List Char → Option (List Char)
  | [], s => some s
  | _ :: _, [] => none
  | c :: cs, d :: ds => if c = d then dropLit cs ds else none

theorem dropLit_append (l r : List Char) : dropLit l (l ++ r) = some r := by
  induction l with
  | nil => rfl
  | cons c cs ih => simpa [dropLit] using ih

/-- Modelled from the platform: `JSON.stringify` on a credential object
(property order follows the object literals built in the repository:
`supabaseUrl` first, then `supabaseKey`; absent fields are omitted). -/
def jsonStringifyCredentials (c : Credentials) : List Char :=
  match c.supabaseUrl, c.supabaseKey with
  | none, none => "\x7b\x7d".data
  | some u, none =>
    "\x7b\"supabaseUrl\":\"".data ++ (jsonEscapeChars u.data ++ ('"' :: "\x7d".data))
  | none, some k =>
    "\x7b\"supabaseKey\":\"".data ++ (jsonEscapeChars k.data ++ ('"' :: "\x7d".data))
  | some u, some k =>
    "\x7b\"supabaseUrl\":\"".data ++ (jsonEscapeChars u.data ++ ('"' ::
      (",\"supabaseKey\":\"".data ++ (jsonEscapeChars k.data ++ ('"' :: "\x7d".data)))))

/-- Modelled from the platform: `JSON.parse`, restricted to the
documents `JSON.stringify` produces for credential objects (the only
strings the repository ever parses in the verified paths). -/
def parseJsonCredentials (s : List Char) : Option Credentials :=
  match dropLit "\x7b\"supabaseUrl\":\"".data s with
  | some r1 =>
    match parseJString r1 with
    | some (u, r2) =>
      if r2 = "\x7d".data then some ⟨some (String.mk u), none⟩
      else
        match dropLit ",\"supabaseKey\":\"".data r2 with
        | some r3 =>
          match parseJString r3 with
          | some (k, r4) =>
            if r4 = "\x7d".data then some ⟨some (String.mk u), some (String.mk k)⟩ else none
          | none => none
        | none => none
    | none => none
  | none =>
    match dropLit "\x7b\"supabaseKey\":\"".data s with
    | some r1 =>
      match parseJString r1 with
      | some (k, r2) =>
        if r2 = "\x7d".data then some ⟨none, some (String.mk k)⟩ else none
      | none => none
    | none =>
      if s = "\x7b\x7d".data then some ⟨none, none⟩ else none

theorem parse_stringify (c : Credentials) :
    parseJsonCredentials (jsonStringifyCredentials c) = some c := by
  obtain ⟨u, k⟩ := c
  cases u with
  | none =>
    cases k with
    | none => rfl
    | some k =>
      have h1 : dropLit "\x7b\"supabaseUrl\":\"".data (jsonStringifyCredentials ⟨none, some k⟩)
          = none := rfl
      have h2 : dropLit "\x7b\"supabaseKey\":\"".data (jsonStringifyCredentials ⟨none, some k⟩)
          = some (jsonEscapeChars k.data ++ ('"' :: "\x7d".data)) := by
        show dropLit _ ("\x7b\"supabaseKey\":\"".data ++ _) = _
        exact dropLit_append _ _
      have h3 : parseJString (jsonEscapeChars k.data ++ ('"' :: "\x7d".data))
          = some (k.data, "\x7d".data) := parseJString_escape _ _
      rw [parseJsonCredentials]
      simp only [h1, h2, h3]
      rfl
  | some u =>
    cases k with
    | none =>
      have h1 : dropLit "\x7b\"supabaseUrl\":\"".data (jsonStringifyCredentials ⟨some u, none⟩)
          = some (jsonEscapeChars u.data ++ ('"' :: "\x7d".data)) := by
        show dropLit _ ("\x7b\"supabaseUrl\":\"".data ++ _) = _
        exact dropLit_append _ _
      have h3 : parseJString (jsonEscapeChars u.data ++ ('"' :: "\x7d".data))
          = some (u.data, "\x7d".data) := parseJString_escape _ _
      rw [parseJsonCredentials]
      simp only [h1, h3]
      rfl
    | some kk =>
      have h1 : dropLit "\x7b\"supabaseUrl\":\"".data
            (jsonStringifyCredentials ⟨some u, some kk⟩)
          = some (jsonEscapeChars u.data ++ ('"' ::
              (",\"supabaseKey\":\"".data ++
                (jsonEscapeChars kk.data ++ ('"' :: "\x7d".data))))) := by
        show dropLit _ ("\x7b\"supabaseUrl\":\"".data ++ _) = _
        exact dropLit_append _ _
      have h3 : parseJString (jsonEscapeChars u.data ++ ('"' ::
            (",\"supabaseKey\":\"".data ++ (jsonEscapeChars kk.data ++ ('"' :: "\x7d".data)))))
          = some (u.data, ",\"supabaseKey\":\"".data ++
              (jsonEscapeChars kk.data ++ ('"' :: "\x7d".data))) := parseJString_escape _ _
      have hne : (",\"supabaseKey\":\"".data ++
          (jsonEscapeChars kk.data ++ ('"' :: "\x7d".data))) ≠ "\x7d".data := by
        intro h
        rw [show (",\"supabaseKey\":\"".data ++
            (jsonEscapeChars kk.data ++ ('"' :: "\x7d".data)))
          = ',' :: ("\"supabaseKey\":\"".data ++
            (jsonEscapeChars kk.data ++ ('"' :: "\x7d".data))) from rfl,
          show "\x7d".data = ['\x7d'] from rfl] at h
        injection h with hh _
        exact absurd hh (by decide)
      have h4 : dropLit ",\"supabaseKey\":\"".data (",\"supabaseKey\":\"".data ++
            (jsonEscapeChars kk.data ++ ('"' :: "\x7d".data)))
          = some (jsonEscapeChars kk.data ++ ('"' :: "\x7d".data)) := dropLit_append _ _
      have h5 : parseJString (jsonEscapeChars kk.data ++ ('"' :: "\x7d".data))
          = some (kk.data, "\x7d".data) := parseJString_escape _ _
      rw [parseJsonCredentials]
      simp only [h1, h3, if_neg hne, h4, h5]
      rfl

/-! ## Web Crypto model (PBKDF2 key derivation and AES-GCM) -/

/-- Modelled from the platform: the key produced by
`SecureStorage.deriveKeyFromPassphrase` (src/lib/crypto.js:35).  PBKDF2
with fixed iteration count and hash is deterministic in passphrase and
salt, and is idealised as injective (collisions are cryptographically
negligible), so the derived key is represented by the pair itself. -/
structure DerivedKey where
  passphrase : String
  salt : List Nat
deriving DecidableEq

/-- `SecureStorage.deriveKeyFromPassphrase(passphrase, salt)`
(src/lib/crypto.js:35): deterministic derivation; same passphrase and
salt always yield the same key. -/
def deriveKeyFromPassphrase (passphrase : String) (salt : List Nat) : DerivedKey :=
  ⟨passphrase, salt⟩

/-- Byte-level framing used by the AES-GCM model: one length-free,
escape-based encoding of a byte list (byte 255 is the escape), ending in
the terminator `255, 0`. -/
def encPiece : List Nat → List Nat
  | [] => [255, 0]
  | b :: bs => if b = 255 then 255 :: 1 :: encPiece bs else b :: encPiece bs

def decPiece : List Nat → Option (List Nat × List Nat)
  | [] => none
  | b :: rest =>
    if b = 255 then
      match rest with
      | [] => none
      | m :: rest2 =>
        if m = 0 then some ([], rest2)
        else if m = 1 then (decPiece rest2).map fun p => (255 :: p.1, p.2)
        else none
    else (decPiece rest).map fun p => (b :: p.1, p.2)

theorem decPiece_encPiece (xs : List Nat) :
    ∀ rest, decPiece (encPiece xs ++ rest) = some (xs, rest) := by
  induction xs with
  | nil => intro rest; rfl
  | cons b bs ih =>
    intro rest
    by_cases hb : b = 255
    · subst hb
      simp only [encPiece, if_pos rfl, List.cons_append]
      rw [decPiece.eq_def]
      norm_num [ih rest]
    · simp only [encPiece, if_neg hb, List.cons_append]
      rw [decPiece.eq_def]
      simp only [if_neg hb, ih rest]
      rfl

theorem encPiece_lt (xs : List Nat) (h : ∀ b ∈ xs, b < 256) :
    ∀ b ∈ encPiece xs, b < 256 := by
  induction xs with
  | nil => intro b hb; simp only [encPiece, List.mem_cons, List.not_mem_nil, or_false] at hb
           rcases hb with rfl | rfl <;> omega
  | cons x xs ih =>
    intro b hb
    have hx : x < 256 := h x (by simp)
    have hxs : ∀ b ∈ xs, b < 256 := fun b hb => h b (by simp [hb])
    by_cases hx255 : x = 255
    · subst hx255
      simp only [encPiece, ite_true, List.mem_cons] at hb
      rcases hb with rfl | hb
      · omega
      rcases hb with rfl | hb
      · omega
      · exact ih hxs b hb
    · simp only [encPiece, if_neg hx255, List.mem_cons] at hb
      rcases hb with rfl | hb
      · omega
      · exact ih hxs b hb

/-- Modelled from the platform Web Crypto API: `crypto.subtle.encrypt`
with AES-GCM.  Authenticated encryption is idealised as an injective,
decodable framing of the derived key, the IV and the plaintext;
`gcmDecrypt` recovers the plaintext exactly when the same key and IV are
supplied, modelling tag verification. -/
def gcmEncrypt (key : DerivedKey) (iv data : List Nat) : List Nat :=
  encPiece (utf8Encode key.passphrase) ++
    (encPiece key.salt ++ (encPiece iv ++ encPiece data))

/-- Modelled from the platform Web Crypto API: `crypto.subtle.decrypt`
with AES-GCM (see `gcmEncrypt`). -/
def gcmDecrypt (key : DerivedKey) (iv ct : List Nat) : Option (List Nat) :=
  match decPiece ct with
  | some (kp, r1) =>
    match decPiece r1 with
    | some (ks, r2) =>
      match decPiece r2 with
      | some (ivv, r3) =>
        match decPiece r3 with
        | some (d, r4) =>
          if kp = utf8Encode key.passphrase ∧ ks = key.salt ∧ ivv = iv ∧ r4 = [] then some d
          else none
        | none => none
      | none => none
    | none => none
  | none => none

theorem gcmDecrypt_gcmEncrypt (key : DerivedKey) (iv data : List Nat) :
    gcmDecrypt key iv (gcmEncrypt key iv data) = some data := by
  have h1 := decPiece_encPiece (utf8Encode key.passphrase)
    (encPiece key.salt ++ (encPiece iv ++ encPiece data))
  have h2 := decPiece_encPiece key.salt (encPiece iv ++ encPiece data)
  have h3 := decPiece_encPiece iv (encPiece data)
  have h4 : decPiece (encPiece data) = some (data, []) := by
    have := decPiece_encPiece data []
    simpa using this
  rw [gcmDecrypt, gcmEncrypt]
  simp only [h1, h2, h3, h4]
  simp

theorem gcmEncrypt_lt (key : DerivedKey) (iv data : List Nat)
    (hsalt : ∀ b ∈ key.salt, b < 256) (hiv : ∀ b ∈ iv, b < 256)
    (hdata : ∀ b ∈ data, b < 256) : ∀ b ∈ gcmEncrypt key iv data, b < 256 := by
  intro b hb
  simp only [gcmEncrypt, List.mem_append] at hb
  rcases hb with hb | hb | hb | hb
  · exact encPiece_lt _ (utf8Encode_lt key.passphrase) b hb
  · exact encPiece_lt _ hsalt b hb
  · exact encPiece_lt _ hiv b hb
  · exact encPiece_lt _ hdata b hb

/-! ## SecureStorage (src/lib/crypto.js) -/

/-- The encrypted blob returned by `SecureStorage.encryptCredentials`
(src/lib/crypto.js:86-93). -/
structure EncryptedCredentials where
  encrypted : String
  salt : String
  iv : String
  version : Nat
  algorithm : String
  timestamp : Nat
deriving DecidableEq

/-- `SecureStorage.encryptCredentials(credentials, passphrase)`
(src/lib/crypto.js:67): generates a fresh salt and IV (the
`crypto.getRandomValues` outputs are parameters here), derives the key,
serializes the credentials to JSON, encrypts, and returns the blob with
base64-encoded fields.  Note: the source performs no validation of
`credentials` in this function. -/
def encryptCredentials (credentials : Credentials) (passphrase : String)
    (salt iv : List Nat) (now : Nat) : EncryptedCredentials :=
  { encrypted := arrayBufferToBase64 (gcmEncrypt (deriveKeyFromPassphrase passphrase salt) iv
      (utf8Encode (String.mk (jsonStringifyCredentials credentials))))
    salt := arrayBufferToBase64 salt
    iv := arrayBufferToBase64 iv
    version := 1
    algorithm := "AES-GCM"
    timestamp := now }

/-- `SecureStorage.decryptCredentials(encryptedData, passphrase)`
(src/lib/crypto.js:101): decodes the base64 fields, re-derives the key
from the blob's salt and the supplied passphrase, decrypts, and parses
the JSON; `none` models the thrown `DecryptionFailed` error. -/
def decryptCredentials (encryptedData : EncryptedCredentials) (passphrase : String) :
    Option Credentials :=
  match gcmDecrypt
      (deriveKeyFromPassphrase passphrase (base64ToArrayBuffer encryptedData.salt))
      (base64ToArrayBuffer encryptedData.iv)
      (base64ToArrayBuffer encryptedData.encrypted) with
  | some decrypted =>
    match utf8DecodeString decrypted with
    | some jsonString => parseJsonCredentials jsonString.data
    | none => none
  | none => none

theorem decryptCredentials_encryptCredentials (credentials : Credentials)
    (passphrase : String) (salt iv : List Nat) (hsalt : ∀ b ∈ salt, b < 256)
    (hiv : ∀ b ∈ iv, b < 256) (now : Nat) :
    decryptCredentials (encryptCredentials credentials passphrase salt iv now) passphrase
      = some credentials := by
  rw [decryptCredentials]
  simp only [encryptCredentials]
  rw [base64_roundtrip salt hsalt, base64_roundtrip iv hiv,
    base64_roundtrip _ (gcmEncrypt_lt _ _ _ hsalt hiv
      (utf8Encode_lt (String.mk (jsonStringifyCredentials credentials)))),
    gcmDecrypt_gcmEncrypt]
  simp only [utf8_roundtrip]
  exact parse_stringify credentials

/-- ASCII character class `[a-zA-Z0-9]`. -/
def isAsciiAlphaNum (c : Char) : Bool :=
  decide (('a' ≤ c ∧ c ≤ 'z') ∨ ('A' ≤ c ∧ c ≤ 'Z') ∨ ('0' ≤ c ∧ c ≤ '9'))

/-- The anchored regex `/^https:\/\/[a-zA-Z0-9]+\.supabase\.co$/`
(src/lib/crypto.js:153) as a direct string check (the character class
excludes `.`, so the greedy run is the maximal alphanumeric prefix). -/
def matchesSupabaseUrl (s : String) : Bool :=
  match dropLit "https://".data s.data with
  | some r =>
    !(r.takeWhile isAsciiAlphaNum).isEmpty &&
      r.dropWhile isAsciiAlphaNum == ".supabase.co".data
  | none => false

/-- The JWT body class `[a-zA-Z0-9_-]`. -/
def isJwtBodyChar (c : Char) : Bool := isAsciiAlphaNum c || c == '_' || c == '-'

/-- The anchored regex `/^eyJ[a-zA-Z0-9_-]+\.[a-zA-Z0-9_-]+\.[a-zA-Z0-9_-]+$/`
(src/lib/crypto.js:159) as a direct string check. -/
def matchesJwtPattern (s : String) : Bool :=
  match dropLit "eyJ".data s.data with
  | some r =>
    match r.dropWhile isJwtBodyChar with
    | '.' :: r2 =>
      match r2.dropWhile isJwtBodyChar with
      | '.' :: r4 =>
        !(r.takeWhile isJwtBodyChar).isEmpty &&
          !(r2.takeWhile isJwtBodyChar).isEmpty &&
          !(r4.takeWhile isJwtBodyChar).isEmpty &&
          (r4.dropWhile isJwtBodyChar).isEmpty
      | _ => false
    | _ => false
  | none => false

/-- `SecureStorage.validateCredentials(credentials)`
(src/lib/crypto.js:139): pure structural/format check.  `none` models a
missing (`undefined`) field or object; an empty string is falsy in
JavaScript, so it also fails the required-field test. -/
def validateCredentials (credentials : Option Credentials) : Bool :=
  match credentials with
  | none => false
  | some c =>
    match c.supabaseUrl, c.supabaseKey with
    | some u, some k =>
      if u = "" || k = "" then false
      else matchesSupabaseUrl u && matchesJwtPattern k
    | _, _ => false

/-- `SecureStorage.generateSecurePassphrase()` (src/lib/crypto.js:132):
base64 of 32 random bytes; the `crypto.getRandomValues` output is a
parameter. -/
def generateSecurePassphrase (randomBytes : List Nat) : String :=
  arrayBufferToBase64 randomBytes

/-- The `chrome.storage.local` keys the credential subsystem touches. -/
structure LocalStorage where
  encryptedCredentials : Option EncryptedCredentials
  credentialsMigrated : Bool
  migrationDate : Option Nat
  installationKey : Option String
  supabaseUrl : Option String
  supabaseKey : Option String
deriving DecidableEq

/-- `SecureStorage.migrateToEncrypted(plaintextCreds, passphrase)`
(src/lib/crypto.js:211): throws `Invalid credential format` when
validation fails (which includes an absent argument); otherwise
encrypts, persists the blob and the migrated flag, removes the plaintext
fields, and returns true. -/
def migrateToEncrypted (plaintextCreds : Option Credentials) (passphrase : String)
    (salt iv : List Nat) (now : Nat) (store : LocalStorage) :
    Except String (Bool × LocalStorage) :=
  if validateCredentials plaintextCreds = false then
    Except.error "Invalid credential format"
  else
    match plaintextCreds with
    | some creds =>
      Except.ok (true,
        { store with
            encryptedCredentials := some (encryptCredentials creds passphrase salt iv now)
            credentialsMigrated := true
            migrationDate := some now
            supabaseUrl := none
            supabaseKey := none })
    | none => Except.error "Invalid credential format"

/-- C1: for every credential structure whose fields are strings and
every passphrase, decrypting the encryption under the same passphrase
returns an equal structure — with PBKDF2 modelled as a deterministic
derivation (the salt and IV stored in the blob re-derive the same key)
and AES-GCM as a correct authenticated-encryption scheme. -/
theorem claim_C1_roundtrip (supabaseUrl supabaseKey passphrase : String)
    (salt iv : List Nat) (hsalt : ∀ b ∈ salt, b < 256) (hiv : ∀ b ∈ iv, b < 256) (now : Nat) :
    decryptCredentials
      (encryptCredentials ⟨some supabaseUrl, some supabaseKey⟩ passphrase salt iv now)
      passphrase = some ⟨some supabaseUrl, some supabaseKey⟩ :=
  decryptCredentials_encryptCredentials _ passphrase salt iv hsalt hiv now

theorem claim_C1_roundtrip_witness :
    (∀ b ∈ [1, 2], b < 256) ∧ (∀ b ∈ [3], b < 256) ∧
      decryptCredentials
        (encryptCredentials ⟨some "https://ab.supabase.co", some "eyJx.y.z"⟩ "pw \"q\\r"
          [1, 2] [3] 5) "pw \"q\\r"
        = some ⟨some "https://ab.supabase.co", some "eyJx.y.z"⟩ :=
  ⟨by decide, by decide,
    claim_C1_roundtrip "https://ab.supabase.co" "eyJx.y.z" "pw \"q\\r" [1, 2] [3]
      (by decide) (by decide) 5⟩

/-- C2 counterexample: `encryptCredentials` does not fail on a structure
missing the required `supabaseKey` field — it performs the encryption
(key derivation included) and produces a blob that decrypts back to the
incomplete structure, contradicting the claimed `MissingField`
validation error before any cryptographic work. -/
theorem claim_C2_counterexample :
    decryptCredentials
      (encryptCredentials ⟨some "https://ab.supabase.co", none⟩ "pw" [1] [2] 0) "pw"
      = some ⟨some "https://ab.supabase.co", none⟩ :=
  decryptCredentials_encryptCredentials ⟨some "https://ab.supabase.co", none⟩ "pw" [1] [2]
    (by decide) (by decide) 0

/-- C2 (amended): `encryptCredentials` itself performs no validation —
for every structure missing a required field it still encrypts, and the
blob decrypts back to the incomplete structure; the structural check
lives in `validateCredentials`, which returns false (without naming the
missing field) and is invoked by callers before encryption. -/
theorem claim_C2_amended (c : Credentials) (passphrase : String) (salt iv : List Nat)
    (hmiss : c.supabaseUrl = none ∨ c.supabaseKey = none)
    (hsalt : ∀ b ∈ salt, b < 256) (hiv : ∀ b ∈ iv, b < 256) (now : Nat) :
    validateCredentials (some c) = false ∧
      decryptCredentials (encryptCredentials c passphrase salt iv now) passphrase = some c := by
  refine ⟨?_, decryptCredentials_encryptCredentials c passphrase salt iv hsalt hiv now⟩
  obtain ⟨u, k⟩ := c
  rcases hmiss with h | h
  · simp only at h; subst h; rfl
  · simp only at h; subst h
    cases u with
    | none => rfl
    | some u => rfl

theorem claim_C2_amended_witness :
    ((⟨none, some "eyJx.y.z"⟩ : Credentials).supabaseUrl = none ∨
      (⟨none, some "eyJx.y.z"⟩ : Credentials).supabaseKey = none) ∧
    (∀ b ∈ [7], b < 256) ∧ (∀ b ∈ [9], b < 256) ∧
      (validateCredentials (some ⟨none, some "eyJx.y.z"⟩) = false ∧
        decryptCredentials (encryptCredentials ⟨none, some "eyJx.y.z"⟩ "p" [7] [9] 0) "p"
          = some ⟨none, some "eyJx.y.z"⟩) :=
  ⟨Or.inl rfl, by decide, by decide,
    claim_C2_amended ⟨none, some "eyJx.y.z"⟩ "p" [7] [9] (Or.inl rfl)
      (by decide) (by decide) 0⟩

/-- C7 counterexample: `generateSecurePassphrase` does not guarantee all
three character classes for every random value — the all-zero random
bytes yield `"AAAAAAAAAAAAAAAAAAAAAAAAAAAAAAAAAAAAAAAAAAA="`, which
contains no digit and no lowercase letter. -/
theorem claim_C7_counterexample :
    generateSecurePassphrase (List.replicate 32 0)
        = "AAAAAAAAAAAAAAAAAAAAAAAAAAAAAAAAAAAAAAAAAAA=" ∧
      (∀ ch ∈ (generateSecurePassphrase (List.replicate 32 0)).data,
        ¬ch.isDigit ∧ ¬ch.isLower) := by
  decide

/-- C7 (amended): every `generateSecurePassphrase` output has length 44
(hence ≥ 32), and outputs are equal only when the underlying 32 random
bytes are equal (so two calls collide only if `crypto.getRandomValues`
returns identical buffers); the presence of an uppercase letter, a
lowercase letter and a digit holds only with high probability over the
random bytes, not for every output. -/
theorem claim_C7_amended (randomBytes : List Nat) (hlen : randomBytes.length = 32)
    (hlt : ∀ b ∈ randomBytes, b < 256) :
    (generateSecurePassphrase randomBytes).length = 44 ∧
      32 ≤ (generateSecurePassphrase randomBytes).length ∧
      (∀ randomBytes2, (∀ b ∈ randomBytes2, b < 256) →
        generateSecurePassphrase randomBytes = generateSecurePassphrase randomBytes2 →
        randomBytes = randomBytes2) := by
  have hlen44 : (generateSecurePassphrase randomBytes).length = 44 := by
    show (String.mk (btoa randomBytes)).length = 44
    have : (String.mk (btoa randomBytes)).length = (btoa randomBytes).length := rfl
    rw [this, btoa_length, hlen]
  refine ⟨hlen44, by omega, ?_⟩
  intro randomBytes2 hlt2 heq
  have hb : btoa randomBytes = btoa randomBytes2 := congrArg String.data heq
  calc randomBytes = atob (btoa randomBytes) := (atob_btoa randomBytes hlt).symm
    _ = atob (btoa randomBytes2) := by rw [hb]
    _ = randomBytes2 := atob_btoa randomBytes2 hlt2

theorem claim_C7_amended_witness :
    (List.replicate 32 7).length = 32 ∧ (∀ b ∈ List.replicate 32 7, b < 256) ∧
      ((generateSecurePassphrase (List.replicate 32 7)).length = 44 ∧
        32 ≤ (generateSecurePassphrase (List.replicate 32 7)).length ∧
        (∀ randomBytes2, (∀ b ∈ randomBytes2, b < 256) →
          generateSecurePassphrase (List.replicate 32 7)
            = generateSecurePassphrase randomBytes2 →
          List.replicate 32 7 = randomBytes2)) :=
  ⟨by decide, by decide, claim_C7_amended (List.replicate 32 7) (by decide) (by decide)⟩

/-- C8 counterexample: with no plaintext credentials to migrate,
`migrateToEncrypted` does not return false — validation fails and it
throws `Invalid credential format`. -/
theorem claim_C8_counterexample :
    migrateToEncrypted none "pw" [] [] 0 ⟨none, false, none, none, none, none⟩
      = Except.error "Invalid credential format" := rfl

/-- C8 (amended): `migrateToEncrypted` on absent plaintext credentials
throws `Invalid credential format` rather than returning false (it never
returns false at all); on valid plaintext credentials it encrypts,
persists the blob with the migrated flag, deletes the plaintext fields,
and returns true. -/
theorem claim_C8_amended (creds : Credentials) (passphrase : String) (salt iv : List Nat)
    (now : Nat) (store : LocalStorage) (hvalid : validateCredentials (some creds) = true) :
    (migrateToEncrypted none passphrase salt iv now store
        = Except.error "Invalid credential format") ∧
    (migrateToEncrypted (some creds) passphrase salt iv now store
        = Except.ok (true,
            { store with
                encryptedCredentials := some (encryptCredentials creds passphrase salt iv now)
                credentialsMigrated := true
                migrationDate := some now
                supabaseUrl := none
                supabaseKey := none })) ∧
    (∀ pc b store2, migrateToEncrypted pc passphrase salt iv now store
        = Except.ok (b, store2) → b = true) := by
  refine ⟨rfl, ?_, ?_⟩
  · rw [migrateToEncrypted.eq_def]
    simp [hvalid]
  · intro pc b store2 h
    rw [migrateToEncrypted.eq_def] at h
    by_cases hv : validateCredentials pc = false
    · rw [if_pos hv] at h; exact absurd h (by simp)
    · rw [if_neg hv] at h
      cases pc with
      | none => exact absurd h (by simp)
      | some creds2 =>
        simp only [Except.ok.injEq, Prod.mk.injEq] at h
        exact h.1.symm

theorem claim_C8_amended_witness :
    validateCredentials (some ⟨some "https://ab.supabase.co", some "eyJx.y.z"⟩) = true ∧
      (migrateToEncrypted none "pw" [4] [5] 9 ⟨none, false, none, none, none, none⟩
          = Except.error "Invalid credential format") ∧
      (migrateToEncrypted (some ⟨some "https://ab.supabase.co", some "eyJx.y.z"⟩)
          "pw" [4] [5] 9 ⟨none, false, none, none, none, none⟩
          = Except.ok (true,
              { encryptedCredentials := some (encryptCredentials
                    ⟨some "https://ab.supabase.co", some "eyJx.y.z"⟩ "pw" [4] [5] 9)
                credentialsMigrated := true
                migrationDate := some 9
                installationKey := none
                supabaseUrl := none
                supabaseKey := none })) := by
  have h := claim_C8_amended ⟨some "https://ab.supabase.co", some "eyJx.y.z"⟩ "pw" [4] [5] 9
    ⟨none, false, none, none, none, none⟩ (by decide)
  exact ⟨by decide, h.1, h.2.1⟩

/-! ## Session key manager (src/background.js) -/

/-- The in-memory session state of the background worker: the cached
passphrase (`sessionPassphrase`, src/background.js:13) and the absolute
expiry of the pending `setTimeout` (src/background.js:143), modelled as
a deadline checked against the wall clock. -/
structure SessionState where
  sessionPassphrase : Option String
  passphraseDeadline : Option Nat
deriving DecidableEq

/-- `PASSPHRASE_TIMEOUT` (src/background.js:18): 5 minutes in ms. -/
def PASSPHRASE_TIMEOUT : Nat := 5 * 60 * 1000

/-- The effect of the pending timer by time `now`: once the deadline has
passed, the callback has fired and cleared the passphrase. -/
def expireSession (s : SessionState) (now : Nat) : SessionState :=
  match s.passphraseDeadline with
  | some d => if d ≤ now then ⟨none, none⟩ else s
  | none => s

/-- Whether a `getCredentials` call served the cached passphrase or had
to recover it from the stored installation key. -/
inductive CredSource
  | cached
  | recovered
deriving DecidableEq

/-- The state cached by `updateConfig` after a credential update
(src/background.js:378-384): passphrase in memory, fresh 5-minute
deadline. -/
def cachePassphrase (p : String) (now : Nat) : SessionState :=
  ⟨some p, some (now + PASSPHRASE_TIMEOUT)⟩

/-- `getCredentials()` (src/background.js:124) as a step of the session
state machine at wall-clock time `now`: if no encrypted blob exists,
return nothing; otherwise use the cached passphrase or recover it from
the stored installation key, reset the 5-minute timer, and decrypt; any
failure clears the cached passphrase (the catch block,
src/background.js:156). -/
def getCredentialsStep (extensionId : String)
    (encryptedCredentials : Option EncryptedCredentials) (store : LocalStorage)
    (s0 : SessionState) (now : Nat) :
    Option (Credentials × CredSource) × SessionState :=
  let s := expireSession s0 now
  match encryptedCredentials with
  | none => (none, s)
  | some blob =>
    match s.sessionPassphrase with
    | some p =>
      match decryptCredentials blob p with
      | some creds => (some (creds, CredSource.cached), ⟨some p, some (now + PASSPHRASE_TIMEOUT)⟩)
      | none => (none, ⟨none, some (now + PASSPHRASE_TIMEOUT)⟩)
    | none =>
      match store.installationKey with
      | none => (none, ⟨none, s.passphraseDeadline⟩)
      | some ik =>
        match decryptInstallationKey extensionId ik with
        | some p =>
          match decryptCredentials blob p with
          | some creds =>
            (some (creds, CredSource.recovered), ⟨some p, some (now + PASSPHRASE_TIMEOUT)⟩)
          | none => (none, ⟨none, some (now + PASSPHRASE_TIMEOUT)⟩)
        | none => (none, ⟨none, s.passphraseDeadline⟩)

/-- The `chrome.idle.onStateChanged` listener (src/background.js:697):
the idle and locked states clear the passphrase and cancel the timer;
any other state change leaves the session untouched. -/
def idleStep (s : SessionState) (state : String) : SessionState :=
  if state = "idle" ∨ state = "locked" then ⟨none, none⟩ else s

/-- C3: the cached session passphrase survives exactly the 5-minute
sliding window: a use before the deadline finds it cached and resets the
window to five minutes from the use; a use at or after the deadline
finds no cached passphrase and must re-recover it from the stored
installation key (also resetting the window); a detected idle or lock
state clears it, and any other idle-state change does not. -/
theorem claim_C3_session_timeout (extensionId ik p p2 : String)
    (blob : EncryptedCredentials) (store : LocalStorage) (creds creds2 : Credentials)
    (t0 : Nat) (hik : store.installationKey = some ik)
    (hrec : decryptInstallationKey extensionId ik = some p2)
    (hdec : decryptCredentials blob p = some creds)
    (hdec2 : decryptCredentials blob p2 = some creds2) :
    (∀ t1, t1 < t0 + PASSPHRASE_TIMEOUT →
      getCredentialsStep extensionId (some blob) store (cachePassphrase p t0) t1
        = (some (creds, CredSource.cached), cachePassphrase p t1)) ∧
    (∀ t2, t0 + PASSPHRASE_TIMEOUT ≤ t2 →
      getCredentialsStep extensionId (some blob) store (cachePassphrase p t0) t2
        = (some (creds2, CredSource.recovered), cachePassphrase p2 t2)) ∧
    (idleStep (cachePassphrase p t0) "idle" = ⟨none, none⟩) ∧
    (idleStep (cachePassphrase p t0) "locked" = ⟨none, none⟩) ∧
    (∀ st, st ≠ "idle" → st ≠ "locked" →
      idleStep (cachePassphrase p t0) st = cachePassphrase p t0) := by
  refine ⟨?_, ?_, rfl, rfl, ?_⟩
  · intro t1 ht
    rw [getCredentialsStep]
    have hexp : expireSession (cachePassphrase p t0) t1 = cachePassphrase p t0 := by
      simp only [expireSession, cachePassphrase]
      rw [if_neg (by omega)]
    rw [hexp]
    simp only [cachePassphrase, hdec]
  · intro t2 ht
    rw [getCredentialsStep]
    have hexp : expireSession (cachePassphrase p t0) t2 = ⟨none, none⟩ := by
      simp only [expireSession, cachePassphrase]
      rw [if_pos (by omega)]
    rw [hexp]
    simp only [hik, hrec, hdec2, cachePassphrase]
  · intro st h1 h2
    simp [idleStep, h1, h2]

/-- Concrete scenario for C3: a blob and installation key set up at time
1000; a use 4 minutes later is served from the cache, a use 6 minutes
later has to recover the passphrase from the installation key. -/
def c3Credentials : Credentials := ⟨some "https://ab.supabase.co", some "eyJx.y.z"⟩

def c3Blob : EncryptedCredentials := encryptCredentials c3Credentials "pp" [1] [2] 0

def c3Store : LocalStorage :=
  ⟨none, true, none, some (encryptInstallationKey "ab" "pp"), none, none⟩

theorem claim_C3_session_timeout_witness :
    c3Store.installationKey = some (encryptInstallationKey "ab" "pp") ∧
    decryptInstallationKey "ab" (encryptInstallationKey "ab" "pp") = some "pp" ∧
    decryptCredentials c3Blob "pp" = some c3Credentials ∧
    1000 + 240000 < 1000 + PASSPHRASE_TIMEOUT ∧
    1000 + PASSPHRASE_TIMEOUT ≤ 1000 + 360000 ∧
    (getCredentialsStep "ab" (some c3Blob) c3Store (cachePassphrase "pp" 1000) (1000 + 240000)
        = (some (c3Credentials, CredSource.cached), cachePassphrase "pp" (1000 + 240000))) ∧
    (getCredentialsStep "ab" (some c3Blob) c3Store (cachePassphrase "pp" 1000) (1000 + 360000)
        = (some (c3Credentials, CredSource.recovered), cachePassphrase "pp" (1000 + 360000))) := by
  have hdec : decryptCredentials c3Blob "pp" = some c3Credentials :=
    decryptCredentials_encryptCredentials c3Credentials "pp" [1] [2] (by decide) (by decide) 0
  have hrec := installationKey_roundtrip "ab" "pp"
  have h := claim_C3_session_timeout "ab" (encryptInstallationKey "ab" "pp") "pp" "pp"
    c3Blob c3Store c3Credentials c3Credentials 1000 rfl hrec hdec hdec
  exact ⟨rfl, hrec, hdec,
    by norm_num [PASSPHRASE_TIMEOUT],
    by norm_num [PASSPHRASE_TIMEOUT],
    h.1 _ (by norm_num [PASSPHRASE_TIMEOUT]),
    h.2.1 _ (by norm_num [PASSPHRASE_TIMEOUT])⟩

/-! ## InputSanitizer (src/lib/parser.js, sanitizer module) -/

/-- Simple (ASCII) case folding, the canonicalization the `i` regex flag
performs on the ASCII patterns used here. -/
def lowerAscii (c : Char) : Char :=
  if 'A' ≤ c ∧ c ≤ 'Z' then Char.ofNat (c.toNat + 32) else c

/-- Case-insensitive literal-prefix test. -/
def startsWithCI : List Char → List Char → Bool
  | [], _ => true
  | _ :: _, [] => false
  | p :: ps, c :: cs => lowerAscii c == lowerAscii p && startsWithCI ps cs

/-- The regex class `\w` (`[a-zA-Z0-9_]`). -/
def isWordChar (c : Char) : Bool :=
  decide (('a' ≤ c ∧ c ≤ 'z') ∨ ('A' ≤ c ∧ c ≤ 'Z') ∨ ('0' ≤ c ∧ c ≤ '9') ∨ c = '_')

/-- The regex class `\s` and the `String.prototype.trim` whitespace set
(ECMA-262 WhiteSpace and LineTerminator code points). -/
def isJsWhitespace (c : Char) : Bool :=
  decide (c.toNat ∈ [9, 10, 11, 12, 13, 32, 0xA0, 0x1680, 0x2000, 0x2001, 0x2002, 0x2003,
    0x2004, 0x2005, 0x2006, 0x2007, 0x2008, 0x2009, 0x200A, 0x2028, 0x2029, 0x202F,
    0x205F, 0x3000, 0xFEFF])

/-- `String.prototype.trim`. -/
def jsTrim (l : List Char) : List Char :=
  ((l.dropWhile isJsWhitespace).reverse.dropWhile isJsWhitespace).reverse

/-- Scan for the first case-insensitive occurrence of `close`, returning
the input remaining after it. -/
def findCloseTagCI (close : List Char) : List Char → Option (List Char)
  | [] => none
  | c :: cs =>
    if startsWithCI close (c :: cs) then some (cs.drop (close.length - 1))
    else findCloseTagCI close cs

/-- One match of a regex of the shape
`/<tag\b[^<]*(?:(?!<\/tag>)<[^<]*)*<\/tag>/gi` at the head of the input
(src/lib/parser.js:301,304,305,307): the open tag with a word boundary,
then everything up to and including the first case-insensitive close
tag; without a close tag there is no match. -/
def matchTagPairCI (openTag close : List Char) (s : List Char) : Option (List Char) :=
  if startsWithCI openTag s then
    match s.drop openTag.length with
    | [] => none
    | c :: rest => if isWordChar c then none else findCloseTagCI close (c :: rest)
  else none

/-- One match of `/<embed\b[^>]*>/gi` (src/lib/parser.js:306) at the
head of the input: `<embed` with a word boundary, then everything up to
and including the first `>`. -/
def matchEmbedCI (s : List Char) : Option (List Char) :=
  if startsWithCI "<embed".data s then
    match s.drop 6 with
    | [] => none
    | c :: rest => if isWordChar c then none else findGtCI (c :: rest)
  else none
where
  findGtCI : List Char → Option (List Char)
    | [] => none
    | c :: cs => if c = '>' then some cs else findGtCI cs

/-- One match of `/on\w+\s*=/gi` (src/lib/parser.js:303) at the head of
the input: `on` case-insensitively, at least one word character (the
maximal run — the classes exclude whitespace and `=`, so backtracking
adds nothing), optional whitespace, then `=`. -/
def matchOnHandler : List Char → Option (List Char)
  | c1 :: c2 :: rest =>
    if lowerAscii c1 = 'o' ∧ lowerAscii c2 = 'n' then
      if (rest.takeWhile isWordChar).isEmpty then none
      else
        match (rest.dropWhile isWordChar).dropWhile isJsWhitespace with
        | '=' :: rest2 => some rest2
        | _ => none
    else none
  | _ => none

/-- One case-insensitive match of a literal pattern at the head of the
input (`/javascript:/gi`, `/data:text\/html/gi`, `/vbscript:/gi`,
src/lib/parser.js:302,308,309). -/
def matchLitCI (pat : List Char) (s : List Char) : Option (List Char) :=
  if startsWithCI pat s then some (s.drop pat.length) else none

/-- Global regex replacement with the empty string: find leftmost
matches, delete each, continue after it.  Fuel bounds the scan; input
length is always sufficient, since every step consumes at least one
character. -/
def scanRemoveLoop (m : List Char → Option (List Char)) : Nat → List Char → List Char
  | _, [] => []
  | 0, s => s
  | fuel + 1, c :: cs =>
    match m (c :: cs) with
    | some r => scanRemoveLoop m fuel r
    | none => c :: scanRemoveLoop m fuel cs

def scanRemove (m : List Char → Option (List Char)) (s : List Char) : List Char :=
  scanRemoveLoop m s.length s

/-- `InputSanitizer.removeDangerousPatterns(text)`
(src/lib/parser.js:345): the nine dangerous-pattern replacements applied
in the order of the `dangerousPatterns` array (src/lib/parser.js:300). -/
def removeDangerousPatterns (text : List Char) : List Char :=
  scanRemove (matchLitCI "vbscript:".data)
    (scanRemove (matchLitCI "data:text/html".data)
      (scanRemove (matchTagPairCI "<applet".data "</applet>".data)
        (scanRemove matchEmbedCI
          (scanRemove (matchTagPairCI "<object".data "</object>".data)
            (scanRemove (matchTagPairCI "<iframe".data "</iframe>".data)
              (scanRemove matchOnHandler
                (scanRemove (matchLitCI "javascript:".data)
                  (scanRemove (matchTagPairCI "<script".data "</script>".data) text))))))))

/-- Modelled from the platform: `InputSanitizer.escapeHtml(text)`
(src/lib/parser.js:356) assigns the text to a DOM node and reads back
`innerHTML`; the HTML fragment serializer escapes exactly `&`, `<`, `>`
and U+00A0 in text content. -/
def escapeHtmlChar (c : Char) : List Char :=
  if c = '&' then "&amp;".data
  else if c = '<' then "&lt;".data
  else if c = '>' then "&gt;".data
  else if c = Char.ofNat 0xA0 then "&nbsp;".data
  else [c]

def escapeHtml : List Char → List Char
  | [] => []
  | c :: cs => escapeHtmlChar c ++ escapeHtml cs

/-- `InputSanitizer.sanitize(input, profile)` (src/lib/parser.js:322):
empty input yields the empty string; dangerous patterns are removed
first; the strict profile then HTML-escapes the result; any other
profile hands the cleaned text to the external DOM-based sanitizer
(DOMPurify or the fallback), modelled by the function parameter `dom`. -/
def sanitize (dom : List Char → String → List Char) (input : String) (profile : String) :
    String :=
  if input = "" then ""
  else
    if profile = "strict" then String.mk (escapeHtml (removeDangerousPatterns input.data))
    else String.mk (dom (removeDangerousPatterns input.data) profile)

/-- The `cleaned` value of `InputSanitizer.sanitizeUrl`
(src/lib/parser.js:421): control characters (U+0000–U+001F and U+007F)
stripped, surrounding whitespace trimmed. -/
def cleanUrl (url : String) : List Char :=
  jsTrim (url.data.filter fun c => !(decide (c.toNat ≤ 0x1F) || decide (c.toNat = 0x7F)))

/-- `InputSanitizer.sanitizeUrl(url)` (src/lib/parser.js:417): strip
control characters, trim, return the empty string for a `javascript:`,
`data:` or `vbscript:` scheme (case-insensitively, the anchored regex
`/^(javascript|data|vbscript):/i`), and otherwise return the cleaned URL
(the allow-list check only logs). -/
def sanitizeUrl (url : String) : String :=
  if url = "" then ""
  else
    if startsWithCI "javascript:".data (cleanUrl url) ||
        startsWithCI "data:".data (cleanUrl url) ||
        startsWithCI "vbscript:".data (cleanUrl url) then ""
    else String.mk (cleanUrl url)

/-- `InputSanitizer.sanitizeForStorage(content)`
(src/lib/parser.js:440): strict sanitization, then truncation to 50,000
characters with the marker `... [truncated]` appended when the limit is
exceeded. -/
def sanitizeForStorage (dom : List Char → String → List Char) (content : String) : String :=
  if content = "" then ""
  else
    if 50000 < (sanitize dom content "strict").length then
      String.mk ((sanitize dom content "strict").data.take 50000) ++ "... [truncated]"
    else sanitize dom content "strict"

/-- A trivial instantiation of the external DOM sanitizer parameter,
used for closed statements that only exercise the strict profile (which
never consults it). -/
def domTrivial : List Char → String → List Char := fun l _ => l

/-- C4: a URL whose cleaned form carries a `javascript:`, `data:` or
`vbscript:` scheme is replaced by the fixed safe placeholder (the empty
string), which is never the original URL; every other URL is returned as
its cleaned self — in particular `https://example.com` unchanged. -/
theorem claim_C4_sanitizeUrl (url : String) :
    (startsWithCI "javascript:".data (cleanUrl url) = true ∨
      startsWithCI "data:".data (cleanUrl url) = true ∨
      startsWithCI "vbscript:".data (cleanUrl url) = true →
        sanitizeUrl url = "" ∧ url ≠ "") ∧
    (startsWithCI "javascript:".data (cleanUrl url) = false →
      startsWithCI "data:".data (cleanUrl url) = false →
      startsWithCI "vbscript:".data (cleanUrl url) = false →
        sanitizeUrl url = String.mk (cleanUrl url)) ∧
    sanitizeUrl "https://example.com" = "https://example.com" := by
  refine ⟨?_, ?_, by decide⟩
  · intro hdanger
    by_cases hurl : url = ""
    · exfalso
      subst hurl
      have hclean : cleanUrl "" = [] := rfl
      rw [hclean] at hdanger
      rcases hdanger with h | h | h <;> simp [startsWithCI] at h
    · refine ⟨?_, hurl⟩
      rw [sanitizeUrl, if_neg hurl]
      have hcond : (startsWithCI "javascript:".data (cleanUrl url) ||
          startsWithCI "data:".data (cleanUrl url) ||
          startsWithCI "vbscript:".data (cleanUrl url)) = true := by
        rcases hdanger with h | h | h <;> simp [h]
      rw [if_pos hcond]
  · intro h1 h2 h3
    by_cases hurl : url = ""
    · subst hurl; rfl
    · rw [sanitizeUrl, if_neg hurl]
      rw [if_neg (by simp [h1, h2, h3])]

theorem claim_C4_sanitizeUrl_witness :
    (startsWithCI "javascript:".data (cleanUrl "javascript:alert(1)") = true ∨
      startsWithCI "data:".data (cleanUrl "javascript:alert(1)") = true ∨
      startsWithCI "vbscript:".data (cleanUrl "javascript:alert(1)") = true) ∧
    (sanitizeUrl "javascript:alert(1)" = "" ∧ ("javascript:alert(1)" : String) ≠ "") ∧
    sanitizeUrl "https://example.com" = String.mk (cleanUrl "https://example.com") ∧
    sanitizeUrl "https://example.com" = "https://example.com" :=
  ⟨Or.inl (by decide),
    (claim_C4_sanitizeUrl "javascript:alert(1)").1 (Or.inl (by decide)),
    (claim_C4_sanitizeUrl "https://example.com").2.1 (by decide) (by decide) (by decide),
    (claim_C4_sanitizeUrl "https://example.com").2.2⟩

/-- C5 counterexample: `sanitize` is not idempotent for every string and
profile — already under the strict profile, the input `"&"` sanitizes to
`"&amp;"`, and a second application re-escapes the ampersand to
`"&amp;amp;"`. -/
theorem claim_C5_counterexample :
    sanitize domTrivial (sanitize domTrivial "&" "strict") "strict"
      ≠ sanitize domTrivial "&" "strict" := by decide

theorem escapeHtml_id (l : List Char) (h : ∀ c ∈ l, escapeHtmlChar c = [c]) :
    escapeHtml l = l := by
  induction l with
  | nil => rfl
  | cons c cs ih =>
    have hc : escapeHtmlChar c = [c] := h c (by simp)
    simp only [escapeHtml, hc, List.cons_append, List.nil_append]
    rw [ih fun c hc => h c (by simp [hc])]

/-- C5 (amended): idempotence holds for the strict profile exactly on
already-sanitized output: for every string that the dangerous-pattern
pass leaves unchanged and that contains no character the HTML escaper
rewrites (`&`, `<`, `>`, U+00A0), a second strict sanitization returns
the first result unchanged.  In general the claim fails — a second pass
re-escapes the `&` of entities produced by the first — and for
non-strict profiles the result is whatever the external DOM sanitizer
(DOMPurify or the fallback) returns. -/
theorem claim_C5_amended (dom : List Char → String → List Char) (s : String)
    (hclean : removeDangerousPatterns s.data = s.data)
    (hesc : ∀ c ∈ s.data, escapeHtmlChar c = [c]) :
    sanitize dom (sanitize dom s "strict") "strict" = sanitize dom s "strict" := by
  have hid : sanitize dom s "strict" = s := by
    rw [sanitize]
    by_cases hs : s = ""
    · rw [if_pos hs, hs]
    · rw [if_neg hs, if_pos rfl, hclean, escapeHtml_id s.data hesc]
  rw [hid]
  exact hid

theorem claim_C5_amended_witness :
    removeDangerousPatterns ("hello world".data) = "hello world".data ∧
    (∀ c ∈ ("hello world".data), escapeHtmlChar c = [c]) ∧
    sanitize domTrivial (sanitize domTrivial "hello world" "strict") "strict"
      = sanitize domTrivial "hello world" "strict" :=
  ⟨by decide, by decide, claim_C5_amended domTrivial "hello world" (by decide) (by decide)⟩

theorem scanRemoveLoop_id (m : List Char → Option (List Char)) (s : List Char)
    (h : ∀ i, m (s.drop i) = none) :
    ∀ fuel, s.length ≤ fuel → scanRemoveLoop m fuel s = s := by
  induction s with
  | nil => intro fuel _; cases fuel <;> rfl
  | cons c cs ih =>
    intro fuel hf
    cases fuel with
    | zero => simp at hf
    | succ f =>
      have h0 : m (c :: cs) = none := by have := h 0; simpa using this
      rw [scanRemoveLoop]
      simp only [h0]
      rw [ih (fun i => by have := h (i + 1); simpa using this) f (by simp at hf; omega)]

theorem scanRemove_id (m : List Char → Option (List Char)) (s : List Char)
    (h : ∀ i, m (s.drop i) = none) : scanRemove m s = s :=
  scanRemoveLoop_id m s h s.length (Nat.le_refl _)

theorem drop_replicate_a (i n : Nat) :
    (List.replicate n 'a').drop i = List.replicate (n - i) 'a' := by
  induction i generalizing n with
  | zero => simp
  | succ i ih =>
    cases n with
    | zero => simp
    | succ n =>
      rw [List.replicate_succ, List.drop_succ_cons, ih]
      congr 1
      omega

theorem startsWithCI_ne_head (p : Char) (ps : List Char) (c : Char) (cs : List Char)
    (h : (lowerAscii c == lowerAscii p) = false) :
    startsWithCI (p :: ps) (c :: cs) = false := by
  simp [startsWithCI, h]

theorem matchTagPairCI_none_a (openTag close : List Char) (p : Char) (ps : List Char)
    (hopen : openTag = p :: ps) (hne : (lowerAscii 'a' == lowerAscii p) = false) :
    ∀ k, matchTagPairCI openTag close (List.replicate k 'a') = none := by
  intro k
  cases k with
  | zero =>
    subst hopen
    rw [matchTagPairCI]
    simp [show startsWithCI (p :: ps) [] = false from rfl]
  | succ k =>
    subst hopen
    rw [matchTagPairCI, List.replicate_succ,
      startsWithCI_ne_head p ps 'a' (List.replicate k 'a') hne]
    simp

theorem matchLitCI_none_a (pat : List Char) (p : Char) (ps : List Char)
    (hpat : pat = p :: ps) (hne : (lowerAscii 'a' == lowerAscii p) = false) :
    ∀ k, matchLitCI pat (List.replicate k 'a') = none := by
  intro k
  cases k with
  | zero =>
    subst hpat
    rw [matchLitCI]
    simp [show startsWithCI (p :: ps) [] = false from rfl]
  | succ k =>
    subst hpat
    rw [matchLitCI, List.replicate_succ,
      startsWithCI_ne_head p ps 'a' (List.replicate k 'a') hne]
    simp

theorem matchEmbedCI_none_a : ∀ k, matchEmbedCI (List.replicate k 'a') = none := by
  intro k
  cases k with
  | zero => rfl
  | succ k =>
    rw [matchEmbedCI, List.replicate_succ]
    have h : startsWithCI "<embed".data ('a' :: List.replicate k 'a') = false := by
      rw [show "<embed".data = '<' :: "embed".data from rfl]
      exact startsWithCI_ne_head _ _ _ _ (by decide)
    simp [h]

theorem matchOnHandler_none_a : ∀ k, matchOnHandler (List.replicate k 'a') = none := by
  intro k
  match k with
  | 0 => rfl
  | 1 => rfl
  | k + 2 =>
    rw [List.replicate_succ, List.replicate_succ, matchOnHandler]
    rw [if_neg (by decide)]

theorem removeDangerousPatterns_replicate_a (n : Nat) :
    removeDangerousPatterns (List.replicate n 'a') = List.replicate n 'a' := by
  have happ : ∀ (m : List Char → Option (List Char)),
      (∀ k, m (List.replicate k 'a') = none) →
      scanRemove m (List.replicate n 'a') = List.replicate n 'a' := by
    intro m hm
    apply scanRemove_id
    intro i
    rw [drop_replicate_a]
    exact hm _
  rw [removeDangerousPatterns,
    happ _ (matchTagPairCI_none_a "<script".data "</script>".data '<' "script".data rfl
      (by decide)),
    happ _ (matchLitCI_none_a "javascript:".data 'j' "avascript:".data rfl (by decide)),
    happ _ matchOnHandler_none_a,
    happ _ (matchTagPairCI_none_a "<iframe".data "</iframe>".data '<' "iframe".data rfl
      (by decide)),
    happ _ (matchTagPairCI_none_a "<object".data "</object>".data '<' "object".data rfl
      (by decide)),
    happ _ matchEmbedCI_none_a,
    happ _ (matchTagPairCI_none_a "<applet".data "</applet>".data '<' "applet".data rfl
      (by decide)),
    happ _ (matchLitCI_none_a "data:text/html".data 'd' "ata:text/html".data rfl (by decide)),
    happ _ (matchLitCI_none_a "vbscript:".data 'v' "bscript:".data rfl (by decide))]

theorem sanitize_strict_replicate_a (dom : List Char → String → List Char) (n : Nat)
    (hn : n ≠ 0) :
    sanitize dom (String.mk (List.replicate n 'a')) "strict"
      = String.mk (List.replicate n 'a') := by
  rw [sanitize]
  have hne : String.mk (List.replicate n 'a') ≠ "" := by
    intro h
    have h2 := congrArg (fun s : String => s.data.length) h
    simp at h2
    exact hn h2
  rw [if_neg hne, if_pos rfl]
  show String.mk (escapeHtml (removeDangerousPatterns (List.replicate n 'a'))) = _
  rw [removeDangerousPatterns_replicate_a,
    escapeHtml_id _ (fun c hc => by rw [List.eq_of_mem_replicate hc]; decide)]

/-- C6: the result of `sanitizeForStorage` never exceeds 50,000
characters plus the truncation marker; a strict-sanitized form within
the limit is returned as-is (nothing appended), and one over the limit
is truncated to 50,000 characters with the marker appended. -/
theorem claim_C6_storage_bound (dom : List Char → String → List Char) (content : String) :
    (sanitizeForStorage dom content).length ≤ 50000 + ("... [truncated]" : String).length ∧
    ((sanitize dom content "strict").length ≤ 50000 →
      sanitizeForStorage dom content = sanitize dom content "strict") ∧
    (50000 < (sanitize dom content "strict").length →
      sanitizeForStorage dom content
        = String.mk ((sanitize dom content "strict").data.take 50000) ++ "... [truncated]") := by
  have hmark : ("... [truncated]" : String).length = 15 := rfl
  refine ⟨?_, ?_, ?_⟩
  · rw [sanitizeForStorage]
    by_cases hc : content = ""
    · rw [if_pos hc]; rw [hmark]; decide
    · rw [if_neg hc]
      by_cases hlen : 50000 < (sanitize dom content "strict").length
      · rw [if_pos hlen]
        have h1 : (String.mk ((sanitize dom content "strict").data.take 50000)
            ++ ("... [truncated]" : String)).length
            = ((sanitize dom content "strict").data.take 50000).length
              + ("... [truncated]" : String).data.length := by
          show ((String.mk _ ++ ("... [truncated]" : String)).data.length) = _
          rw [String.data_append]
          simp [List.length_append]
        rw [h1]
        have h2 : ((sanitize dom content "strict").data.take 50000).length ≤ 50000 := by
          simp [List.length_take]
        have h3 : ("... [truncated]" : String).data.length = 15 := rfl
        omega
      · rw [if_neg hlen]
        rw [hmark]
        omega
  · intro h
    rw [sanitizeForStorage]
    by_cases hc : content = ""
    · rw [if_pos hc]; subst hc; rfl
    · rw [if_neg hc, if_neg (by omega)]
  · intro h
    rw [sanitizeForStorage]
    by_cases hc : content = ""
    · exfalso
      subst hc
      have hz : sanitize dom "" "strict" = "" := rfl
      rw [hz] at h
      simp at h
    · rw [if_neg hc, if_pos h]

theorem claim_C6_storage_bound_witness :
    50000 < (sanitize domTrivial (String.mk (List.replicate 60000 'a')) "strict").length ∧
    sanitizeForStorage domTrivial (String.mk (List.replicate 60000 'a'))
      = String.mk ((sanitize domTrivial (String.mk (List.replicate 60000 'a'))
          "strict").data.take 50000) ++ "... [truncated]" ∧
    (sanitizeForStorage domTrivial (String.mk (List.replicate 60000 'a'))).length ≤ 50050 ∧
    (sanitize domTrivial "short note" "strict").length ≤ 50000 ∧
    sanitizeForStorage domTrivial "short note" = sanitize domTrivial "short note" "strict" := by
  have hsan : sanitize domTrivial (String.mk (List.replicate 60000 'a')) "strict"
      = String.mk (List.replicate 60000 'a') :=
    sanitize_strict_replicate_a domTrivial 60000 (by omega)
  have hlen : (sanitize domTrivial (String.mk (List.replicate 60000 'a')) "strict").length
      = 60000 := by
    rw [hsan]
    show (List.replicate 60000 'a').length = 60000
    rw [List.length_replicate]
  have hbig := claim_C6_storage_bound domTrivial (String.mk (List.replicate 60000 'a'))
  have hshort := claim_C6_storage_bound domTrivial "short note"
  have hshortlen : (sanitize domTrivial "short note" "strict").length ≤ 50000 := by decide
  refine ⟨by omega, hbig.2.2 (by omega), ?_, hshortlen, hshort.2.1 hshortlen⟩
  have := hbig.1
  have hm : ("... [truncated]" : String).length = 15 := rfl
  omega

/-! ## sanitizeMessage and the background message dispatcher -/

/-- Property lookup on a JavaScript object modelled as a key-value list
(string-valued fields suffice for the verified paths). -/
def jsGetField (m : List (String × String)) (k : String) : Option String :=
  (m.find? fun p => p.1 == k).map fun p => p.2

/-- `InputSanitizer.sanitizeMessage(message)` (src/lib/parser.js:465):
builds a fresh object with exactly the fields `role`, `content`,
`timestamp`, `url`, `site`.  An absent field reads as `undefined`, which
every branch treats like the empty string (both are falsy and `sanitize`
maps both to `""`).  `dateNorm` models `new Date(x).toISOString()` and
`nowIso` models `new Date().toISOString()`. -/
def sanitizeMessage (dom : List Char → String → List Char) (dateNorm : String → String)
    (nowIso : String) (message : Option (List (String × String))) :
    List (String × String) :=
  match message with
  | none => [("role", ""), ("content", "")]
  | some msg =>
    [("role", sanitize dom ((jsGetField msg "role").getD "") "strict"),
     ("content", sanitizeForStorage dom ((jsGetField msg "content").getD "")),
     ("timestamp",
       if (jsGetField msg "timestamp").getD "" ≠ "" then
         dateNorm ((jsGetField msg "timestamp").getD "")
       else nowIso),
     ("url",
       if (jsGetField msg "url").getD "" ≠ "" then
         sanitizeUrl ((jsGetField msg "url").getD "")
       else ""),
     ("site", sanitize dom ((jsGetField msg "site").getD "") "strict")]

/-- The dispatch of `handleMessage` (src/background.js:170): the request
is first passed through `sanitizeMessage`, and the switch then reads
`sanitizedRequest.type`; the handler invoked is named, with the default
branch producing the `Unknown message type` error response. -/
def handleMessageDispatch (dom : List Char → String → List Char)
    (dateNorm : String → String) (nowIso : String)
    (request : Option (List (String × String))) : String :=
  match jsGetField (sanitizeMessage dom dateNorm nowIso request) "type" with
  | some "STORE_MEMORY" => "storeMemory"
  | some "SEARCH_MEMORIES" => "searchMemories"
  | some "GET_STATS" => "getStats"
  | some "CLEAR_RECENT" => "clearRecentMemories"
  | some "EXPORT_MEMORIES" => "exportMemories"
  | some "UPDATE_CONFIG" => "updateConfig"
  | some "TOGGLE_ENABLED" => "toggleEnabled"
  | some "CHECK_ENCRYPTION" => "checkEncryption"
  | _ => "error: Unknown message type"

/-- C9: for every non-null input object, `sanitizeMessage` returns an
object with exactly the five fields `role`, `content`, `timestamp`,
`url`, `site` and no others; in particular the `type` field of a request
is dropped, so the background dispatcher, which reads
`sanitizedRequest.type`, always lands in its `Unknown message type`
default branch. -/
theorem claim_C9_sanitizeMessage_fields (dom : List Char → String → List Char)
    (dateNorm : String → String) (nowIso : String) (m : List (String × String)) :
    (sanitizeMessage dom dateNorm nowIso (some m)).map Prod.fst
        = ["role", "content", "timestamp", "url", "site"] ∧
    jsGetField (sanitizeMessage dom dateNorm nowIso (some m)) "type" = none ∧
    handleMessageDispatch dom dateNorm nowIso (some m) = "error: Unknown message type" := by
  refine ⟨rfl, rfl, ?_⟩
  rw [handleMessageDispatch]
  rfl

/-- C10: the XOR obfuscation of the installation key round-trips
exactly: for every passphrase and every stable extension identifier used
as the XOR key, decrypting the encrypted installation key restores the
original passphrase (encode to bytes, XOR cyclically with the identifier
bytes, base64-encode; the inverse composition is the identity). -/
theorem claim_C10_installation_key_roundtrip (extensionId p : String) :
    decryptInstallationKey extensionId (encryptInstallationKey extensionId p) = some p :=
  installationKey_roundtrip extensionId p
